import Mathlib

/-!
Shallow embedding of the metadata-acquisition and metric-aggregation core of
the journal analysis tool (`src/app.py`), together with theorems checking the
specification's claims about it.

Python floats that only ever hold exact decimal constants (the delay table,
metric percentages) are modelled as rationals; machine time is modelled as a
rational timestamp.  Sleeping (`time.sleep`) changes no program state, so the
embeddings record state transitions and returned values only.
-/

namespace JournalTool

/-- Retry ceiling, `RETRIES = 3` in the source configuration. -/
def RETRIES : ℕ := 3

/-- Backoff delay table `DELAYS = [0.2, 0.5, 0.7, 1.0, 1.3, 1.5, 2.0]`,
with the decimal constants as exact rationals. -/
def DELAYS : List ℚ := [1/5, 1/2, 7/10, 1, 13/10, 3/2, 2]

/-- State transition of `AdaptiveDelayer.wait(success)`: the delayer state is
the integer `delay_index`; on success the index resets to `0`, on failure it
advances by one, capped at the last table position; the delay at the new index
is slept and returned.  Returns `(returned delay, new index)`. -/
def AdaptiveDelayer.wait (success : Bool) (delay_index : ℕ) : ℚ × ℕ :=
  let idx := if success then 0 else min (delay_index + 1) (DELAYS.length - 1)
  (DELAYS.getD idx 0, idx)

/-- Delayer index after `k` consecutive `wait(success=False)` calls starting
from index `idx`. -/
def afterFailures : ℕ → ℕ → ℕ
  | 0, idx => idx
  | k + 1, idx => afterFailures k (AdaptiveDelayer.wait false idx).2

/-- State transition of `RateLimiter.wait_if_needed()` on the recorded
timestamp list (state of one limiter instance): prune timestamps older than
one second, and when the pruned list has reached the capacity
`calls_per_second`, drop its oldest entry (`timestamps[1:]`) after the sleep;
finally record `now`.  The sleep changes no state and the recorded value is
the `now` read at entry, as in the source. -/
def RateLimiter.wait_if_needed (calls_per_second : ℕ) (now : ℚ)
    (timestamps : List ℚ) : List ℚ :=
  let pruned := timestamps.filter (fun ts => now - ts < 1)
  let kept := if calls_per_second ≤ pruned.length then pruned.tail else pruned
  kept ++ [now]

/-- Timestamp list after a sequence of `wait_if_needed` calls at the given
times, starting from the freshly constructed limiter (empty list). -/
def RateLimiter.run (calls_per_second : ℕ) (times : List ℚ) : List ℚ :=
  times.foldl (fun st now => RateLimiter.wait_if_needed calls_per_second now st) []

/-- Capacity of the `RateLimiter` instance shared by all fetch call sites:
the module-level `rate_limiter = RateLimiter(calls_per_second=8)`. -/
def rate_limiter_calls_per_second : ℕ := 8

/-! ### Retry-wrapped single-entity fetches -/

/-- Outcome of one HTTP attempt as observed by the retry loops of
`get_crossref_metadata` / `get_openalex_metadata`: a 200 response carrying the
parsed payload, a non-200 status (falls through without returning), or a
raised exception (swallowed by the bare `except`). -/
inductive Attempt (α : Type) where
  | ok (data : α)
  | notOk
  | exc
deriving DecidableEq

/-- Retry loop of `get_crossref_metadata` (`for _ in range(RETRIES)`), over a
stream of attempt outcomes indexed by attempt number: on a 200 response the
payload is cached and returned after `delayer.wait(success=True)`; otherwise
`delayer.wait(success=False)` runs and the next attempt starts; after the last
attempt the loop falls through to `return None`.  Returns the result, the
final delayer index, and the number of failure-path delayer calls. -/
def crossrefRetryLoop (α : Type) (attempts : ℕ → Attempt α) :
    ℕ → ℕ → ℕ → Option α × ℕ × ℕ
  | _, 0, idx => (none, idx, 0)
  | k, r + 1, idx =>
    match attempts k with
    | .ok d => (some d, (AdaptiveDelayer.wait true idx).2, 0)
    | _ =>
      let idx' := (AdaptiveDelayer.wait false idx).2
      let out := crossrefRetryLoop α attempts (k + 1) r idx'
      (out.1, out.2.1, out.2.2 + 1)

/-- Embedding of `get_crossref_metadata(doi, state)`: a cache hit returns the
cached record; a falsy or `'N/A'` DOI returns `None` immediately; otherwise
the retry loop runs for `RETRIES` attempts and `None` is returned when all of
them fail.  Returns the result together with the final delayer index and the
number of failure-path delayer calls. -/
def get_crossref_metadata (α : Type) (doi : String) (cached : Option α)
    (attempts : ℕ → Attempt α) (idx : ℕ) : Option α × ℕ × ℕ :=
  match cached with
  | some d => (some d, idx, 0)
  | none =>
    if doi = "" ∨ doi = "N/A" then (none, idx, 0)
    else crossrefRetryLoop α attempts 0 RETRIES idx

/-- Outcome of one HTTP attempt of `get_journal_name`: a 200 response whose
`meta.count > 0` (the only case that returns), a 200 response with
`meta.count == 0` (no return: control falls through to the failure-path
delayer call, like a non-200), a non-200 status, or a raised exception. -/
inductive SourcesAttempt where
  | okFound (name : String)
  | okEmpty
  | notOk
  | exc
deriving DecidableEq

/-- The `'journal_not_found'` sentinel string returned by `get_journal_name`
after all retries fail (English entry of the translation table). -/
def journal_not_found_text : String := "Journal not found"

/-- Retry loop of `get_journal_name`: only a 200 response with a nonempty
result set returns (after `delayer.wait(success=True)`); every other outcome
runs `delayer.wait(success=False)` and retries. -/
def journalRetryLoop (attempts : ℕ → SourcesAttempt) :
    ℕ → ℕ → ℕ → Option String × ℕ × ℕ
  | _, 0, idx => (none, idx, 0)
  | k, r + 1, idx =>
    match attempts k with
    | .okFound n => (some n, (AdaptiveDelayer.wait true idx).2, 0)
    | _ =>
      let idx' := (AdaptiveDelayer.wait false idx).2
      let out := journalRetryLoop attempts (k + 1) r idx'
      (out.1, out.2.1, out.2.2 + 1)

/-- Embedding of `get_journal_name(issn)`: a cache hit returns the cached
name; otherwise the retry loop runs for `RETRIES` attempts and the
`'journal_not_found'` sentinel is returned when no attempt succeeds. -/
def get_journal_name (cached : Option String) (attempts : ℕ → SourcesAttempt)
    (idx : ℕ) : String × ℕ × ℕ :=
  match cached with
  | some n => (n, idx, 0)
  | none =>
    let out := journalRetryLoop attempts 0 RETRIES idx
    (out.1.getD journal_not_found_text, out.2.1, out.2.2)

/-! ### Paginated fetch loops -/

/-- One page response of a paginated API endpoint: an HTTP-level failure
(non-200 or exception), or a 200 payload carrying the item list and the
optional next-cursor token (`meta.next_cursor` / `message.next-cursor`). -/
inductive PageResp (α : Type) where
  | fail
  | ok (items : List α) (next_cursor : Option String)

/-- Python truthiness of the cursor variable: `None` and the empty string are
falsy, any other string keeps the `while cursor:` loop running. -/
def cursorTruthy : Option String → Bool
  | none => false
  | some s => !(s == "")

/-- Inner retry loop shared by both pagination loops: up to `RETRIES` HTTP
requests for the current page (the `req` counter indexes successive HTTP
requests into the API model); the first 200 response yields the page, and
exhausting the retries yields `none` (`success` stays false).  Returns the
next request counter with the outcome. -/
def pageRetry (α : Type) (api : ℕ → PageResp α) :
    ℕ → ℕ → ℕ × Option (List α × Option String)
  | req, 0 => (req, none)
  | req, r + 1 =>
    match api req with
    | .ok items next => (req + 1, some (items, next))
    | .fail => pageRetry α api (req + 1) r

/-- Fuel-indexed embedding of the `while cursor:` loop of
`get_citing_dois_and_metadata`: while the cursor is truthy, fetch one page
with retries; if the retries are exhausted, break and return the accumulated
list; otherwise append the items that carry a DOI (`if c_doi:`) and continue
with the page's next cursor.  There is no empty-page check in this loop.
`none` means the loop did not finish within `fuel` iterations. -/
def citingPagesLoop (α : Type) (hasDoi : α → Bool) (api : ℕ → PageResp α) :
    ℕ → ℕ → Option String → List α → Option (List α)
  | 0, _, _, _ => none
  | fuel + 1, req, cursor, acc =>
    if cursorTruthy cursor then
      match pageRetry α api req RETRIES with
      | (_, none) => some acc
      | (req', some (items, next)) =>
        citingPagesLoop α hasDoi api fuel req' next (acc ++ items.filter hasDoi)
    else some acc

/-- Proposition that the citing-works pagination loop, started the way
`get_citing_dois_and_metadata` starts it (`cursor = "*"`, empty accumulator),
terminates against the given API model: some amount of fuel suffices. -/
def citingLoopTerminates (α : Type) (hasDoi : α → Bool)
    (api : ℕ → PageResp α) : Prop :=
  ∃ fuel, (citingPagesLoop α hasDoi api fuel 0 (some "*") []).isSome

/-- Fuel-indexed embedding of the `while cursor:` loop of
`fetch_articles_by_issn_period`: while the cursor is truthy, fetch one page
with retries; `if not success: break` returns the accumulated items, and —
unlike the citing loop — `if not new_items: break` then ends the loop as soon
as a page contributes zero items. -/
def articlesPagesLoop (α : Type) (api : ℕ → PageResp α) :
    ℕ → ℕ → Option String → List α → Option (List α)
  | 0, _, _, _ => none
  | fuel + 1, req, cursor, acc =>
    if cursorTruthy cursor then
      match pageRetry α api req RETRIES with
      | (_, none) => some acc
      | (req', some (new_items, next)) =>
        let acc' := acc ++ new_items
        if new_items.isEmpty then some acc'
        else articlesPagesLoop α api fuel req' next acc'
    else some acc

/-- API model for the pagination-termination scenario: every request answers
200 with an empty items array and a cursor token. -/
def emptyPageApi : ℕ → PageResp Unit := fun _ => .ok [] (some "*")

/-! ### H-index (`enhanced_stats_calculation`) -/

/-- Descending sort of the per-work citation counts,
`citation_counts.sort(reverse=True)`. -/
def sortDescending (l : List ℕ) : List ℕ :=
  l.insertionSort (fun a b => b ≤ a)

/-- The `for i, count in enumerate(citation_counts): if count >= i + 1 ...
else: break` loop of `enhanced_stats_calculation`; the accumulator is the
running value of `h_index` (equal to the number of positions consumed). -/
def hIndexLoop : List ℕ → ℕ → ℕ
  | [], h => h
  | count :: rest, i => if i + 1 ≤ count then hIndexLoop rest (i + 1) else i

/-- H-index of a list of per-work citing-edge counts, as computed by
`enhanced_stats_calculation`: sort descending, then take the largest 1-based
position whose value still reaches it. -/
def h_index (citation_counts : List ℕ) : ℕ :=
  hIndexLoop (sortDescending citation_counts) 0

/-! ### Work records and metric aggregators -/

/-- A JSON field that the source probes with
`if isinstance(x, str): x = [x]` — either a bare string or a list. -/
def StrOrList : Type := String ⊕ List String

/-- Coercion used at both ISSN probes: a bare string becomes a singleton
list, a list is kept. -/
def strOrListToList : Option StrOrList → List String
  | none => []
  | some (.inl s) => [s]
  | some (.inr l) => l

/-- One entry of the OpenAlex `concepts` list; each field is probed with
`.get` and a default (`'Unknown'`, `0`). -/
structure Concept where
  display_name : Option String
  score : Option ℚ

/-- The `host_venue` sub-record of an OpenAlex work; `none` stands for a
missing or empty (falsy) `host_venue` value, which the source skips with
`if host_venue:`. -/
structure HostVenue where
  issn : Option StrOrList

/-- Fields of an OpenAlex work record (the "graph half") read by the
aggregators under scrutiny; every field is optional because the source probes
each with `.get` and a default. -/
structure OpenAlexWork where
  cited_by_count : Option ℕ
  concepts : Option (List Concept)
  type : Option String
  open_access_is_oa : Option Bool
  host_venue : Option HostVenue

/-- Fields of a Crossref work record (the "registry half") read by the
aggregators under scrutiny. -/
structure CrossrefWork where
  ISSN : Option StrOrList

/-- A unified work record as produced by `get_unified_metadata`: the pair of
optional halves `{'crossref': ..., 'openalex': ...}`. -/
structure WorkMeta where
  crossref : Option CrossrefWork
  openalex : Option OpenAlexWork

/-- A citing-edge record as built by `get_citing_dois_and_metadata`:
`{'doi': ..., 'pub_date': ..., 'crossref': ..., 'openalex': ...}`. -/
structure CitingRecord where
  doi : Option String
  pub_date : Option String
  crossref : Option CrossrefWork
  openalex : Option OpenAlexWork

/-- Round-half-to-even of a rational to an integer, the semantics of
Python's built-in `round`. -/
def pyRound (q : ℚ) : ℤ :=
  let f := ⌊q⌋
  let r := q - f
  if r < 1/2 then f
  else if 1/2 < r then f + 1
  else if Even f then f else f + 1

/-- Python `round(x, d)` for `d` decimal digits, on exact rationals. -/
def pyRoundTo (d : ℕ) (q : ℚ) : ℚ :=
  (pyRound (q * (10 : ℚ) ^ d) : ℚ) / (10 : ℚ) ^ d

/-- Running totals of the first scan of `calculate_fwci_fast`. -/
structure FwciScan where
  total_cites : ℕ
  articles_processed : ℕ
  articles_with_concepts : ℕ
  concept_citations : List (String × (ℕ × ℕ × ℚ))

/-- Update of the `concept_citations` dict for one concept occurrence: the
per-name entry accumulates `total_cites`, `article_count`, `total_score`;
a new name is appended, matching Python dict insertion order. -/
def conceptMapAdd : List (String × (ℕ × ℕ × ℚ)) → String → ℕ → ℚ →
    List (String × (ℕ × ℕ × ℚ))
  | [], name, cites, score => [(name, (cites, 1, score))]
  | (n, st) :: rest, name, cites, score =>
    if n = name then (n, (st.1 + cites, st.2.1 + 1, st.2.2 + score)) :: rest
    else (n, st) :: conceptMapAdd rest name cites score

/-- One iteration of the first loop of `calculate_fwci_fast`: records lacking
the graph half are skipped; otherwise `cited_by_count` (default 0) is added,
and when the `concepts` list is nonempty its top-3 entries by score feed the
concept dict.  The `sorted(..., key=score, reverse=True)` call is a stable
descending sort. -/
def fwciStep (s : FwciScan) (meta : WorkMeta) : FwciScan :=
  match meta.openalex with
  | none => s
  | some oa =>
    let cites := oa.cited_by_count.getD 0
    let concepts := oa.concepts.getD []
    if concepts.isEmpty then
      { s with total_cites := s.total_cites + cites
               articles_processed := s.articles_processed + 1 }
    else
      let top :=
        (concepts.insertionSort (fun a b => b.score.getD 0 ≤ a.score.getD 0)).take 3
      { total_cites := s.total_cites + cites
        articles_processed := s.articles_processed + 1
        articles_with_concepts := s.articles_with_concepts + 1
        concept_citations :=
          top.foldl
            (fun m c => conceptMapAdd m (c.display_name.getD "Unknown") cites
              (c.score.getD 0))
            s.concept_citations }

/-- Concept-based expected-citations sum of `calculate_fwci_fast`: per
concept, average citations per article weighted by the average score. -/
def conceptExpected (m : List (String × (ℕ × ℕ × ℚ))) : ℚ :=
  m.foldl
    (fun acc p =>
      if 0 < p.2.2.1 then
        acc + ((p.2.1 : ℚ) / p.2.2.1) * (p.2.2.2 / p.2.2.1)
      else acc)
    0

/-- The `type_expectations` lookup table with its `.get(work_type, 1.0)`
default. -/
def type_expectations (t : String) : ℚ :=
  if t = "article" then 1
  else if t = "review" then 2
  else if t = "conference" then 7/10
  else if t = "book" then 1/2
  else if t = "other" then 4/5
  else 1

/-- Fallback expected-citations sum of `calculate_fwci_fast`: one
type-table entry per record that has a graph half (`type` defaults to
`'article'`). -/
def typeExpectedSum (metas : List WorkMeta) : ℚ :=
  metas.foldl
    (fun acc meta =>
      match meta.openalex with
      | none => acc
      | some oa => acc + type_expectations (oa.type.getD "article"))
    0

/-- Result dict of `calculate_fwci_fast`; `concepts_analyzed` is absent
(`none`) on the two early-return paths. -/
structure FwciResult where
  FWCI : ℚ
  total_cites : ℕ
  expected_cites : ℚ
  articles_with_concepts : ℕ
  method_used : String
  concepts_analyzed : Option ℕ
deriving DecidableEq

/-- Early-return value of `calculate_fwci_fast` on an empty input list. -/
def fwciNoData : FwciResult := ⟨0, 0, 0, 0, "no_data", none⟩

/-- Early-return value of `calculate_fwci_fast` when no record was processed
or no citation was seen. -/
def fwciNoCitations : FwciResult := ⟨0, 0, 0, 0, "no_citations", none⟩

/-- Embedding of `calculate_fwci_fast(analyzed_metadata)`. -/
def calculate_fwci_fast (metas : List WorkMeta) : FwciResult :=
  if metas.isEmpty then fwciNoData
  else
    let s := metas.foldl fwciStep ⟨0, 0, 0, []⟩
    if s.articles_processed = 0 ∨ s.total_cites = 0 then fwciNoCitations
    else
      let e0 :=
        if s.concept_citations.isEmpty then (typeExpectedSum metas, "type_based")
        else (conceptExpected s.concept_citations, "concept_based")
      let e1 := if e0.1 = 0 then ((s.articles_processed : ℚ), "fallback") else e0
      let fwci := if 0 < e1.1 then (s.total_cites : ℚ) / e1.1 else 0
      ⟨pyRoundTo 2 fwci, s.total_cites, pyRoundTo 2 e1.1,
        s.articles_with_concepts, e1.2, some s.concept_citations.length⟩

/-- The two citation lists built by `calculate_oa_impact_premium_fast`:
records lacking the graph half are skipped, the rest are partitioned by
the `open_access.is_oa` flag (default `False`), keeping iteration order. -/
def oaCitationsSplit (metas : List WorkMeta) : List ℕ × List ℕ :=
  metas.foldr
    (fun m acc =>
      match m.openalex with
      | none => acc
      | some w =>
        let cites := w.cited_by_count.getD 0
        if w.open_access_is_oa.getD false then (cites :: acc.1, acc.2)
        else (acc.1, cites :: acc.2))
    ([], [])

/-- The guarded mean `np.mean(l) if l else 0` of the source. -/
def listMeanQ (l : List ℕ) : ℚ :=
  if l.isEmpty then 0 else (l.sum : ℚ) / l.length

/-- Result dict of `calculate_oa_impact_premium_fast`. -/
structure OaPremiumResult where
  OA_impact_premium : ℚ
  OA_articles : ℕ
  non_OA_articles : ℕ
  OA_avg_citations : ℚ
  non_OA_avg_citations : ℚ
deriving DecidableEq

/-- Embedding of `calculate_oa_impact_premium_fast(analyzed_metadata)`. -/
def calculate_oa_impact_premium_fast (metas : List WorkMeta) : OaPremiumResult :=
  let split := oaCitationsSplit metas
  let oa_avg := listMeanQ split.1
  let non_oa_avg := listMeanQ split.2
  let premium :=
    if 0 < non_oa_avg then (oa_avg - non_oa_avg) / non_oa_avg * 100 else 0
  ⟨pyRoundTo 1 premium, split.1.length, split.2.length,
    pyRoundTo 1 oa_avg, pyRoundTo 1 non_oa_avg⟩

/-- ISSN normalization used by `calculate_jscr_fast`:
`issn.replace('-', '').upper()` (ASCII uppercase; ISSNs are ASCII). -/
def normalize_issn (s : String) : String :=
  String.mk ((s.data.filter (fun c => c ≠ '-')).map Char.toUpper)

/-- The per-list ISSN scan of `calculate_jscr_fast`: a truthy entry whose
normalization equals the journal's normalized ISSN sets `found_match`. -/
def issnListMatches (issns : List String) (jclean : String) : Bool :=
  issns.any (fun issn => issn ≠ "" && normalize_issn issn == jclean)

/-- Whether one citing-edge record counts as a journal self-citation: first
the OpenAlex `host_venue.issn` entries are checked (skipped when `host_venue`
is missing or falsy), then, if no match, the Crossref `ISSN` entries.  The
`container-title` block of the source is a no-op (`pass`). -/
def citingMatches (c : CitingRecord) (jclean : String) : Bool :=
  let oaMatch :=
    match c.openalex with
    | none => false
    | some oa =>
      match oa.host_venue with
      | none => false
      | some hv => issnListMatches (strOrListToList hv.issn) jclean
  if oaMatch then true
  else
    match c.crossref with
    | none => false
    | some cr => issnListMatches (strOrListToList cr.ISSN) jclean

/-- The counting loop of `calculate_jscr_fast`, with the running
`(self_cites, total_processed)` pair as accumulator: falsy records are
skipped entirely (not counted in `total_processed`); every other record
increments `total_processed`, and the matching ones also `self_cites`. -/
def jscrCounts : List (Option CitingRecord) → String → ℕ × ℕ → ℕ × ℕ
  | [], _, acc => acc
  | none :: rest, jclean, acc => jscrCounts rest jclean acc
  | some c :: rest, jclean, acc =>
    jscrCounts rest jclean
      ((if citingMatches c jclean then acc.1 + 1 else acc.1), acc.2 + 1)

/-- Result dict of `calculate_jscr_fast`; `journal_issn_clean` is absent
(`none`) on the empty-input early return.  The `debug` string fields of the
source are presentation-only and carry no further data. -/
structure JscrResult where
  JSCR : ℚ
  self_cites : ℕ
  total_cites : ℕ
  journal_issn_clean : Option String
deriving DecidableEq

/-- Normalization of the analyzed journal's ISSN in `calculate_jscr_fast`:
`journal_issn.replace('-', '').upper() if journal_issn else ""`. -/
def jscrJournalClean (journal_issn : Option String) : String :=
  match journal_issn with
  | none => ""
  | some s => if s = "" then "" else normalize_issn s

/-- Embedding of `calculate_jscr_fast(citing_metadata, journal_issn)`:
empty input returns the zero dict; otherwise the journal ISSN is normalized
(falsy input gives the empty string), records are counted, and
`JSCR = round(self_cites / total_processed * 100, 2)` with the division
guarded by `total_processed > 0`. -/
def calculate_jscr_fast (cm : List (Option CitingRecord))
    (journal_issn : Option String) : JscrResult :=
  if cm.isEmpty then ⟨0, 0, 0, none⟩
  else
    let jclean := jscrJournalClean journal_issn
    let counts := jscrCounts cm jclean (0, 0)
    let jscr :=
      if 0 < counts.2 then pyRoundTo 2 ((counts.1 : ℚ) / counts.2 * 100) else 0
    ⟨jscr, counts.1, counts.2, some jclean⟩

/-! ### Python string primitives

The Python string methods used by the source are embedded structurally over
the character list of a `String`, so that every definition evaluates by
kernel reduction. -/

/-- Python `str.split(sep)` for a one-character separator, keeping empty
pieces (`"a,,b".split(',') == ['a','','b']`). -/
def pySplitData (sep : Char) : List Char → List (List Char)
  | [] => [[]]
  | c :: rest =>
    match pySplitData sep rest with
    | [] => [[]]
    | cur :: parts =>
      if c = sep then [] :: cur :: parts else (c :: cur) :: parts

/-- Python `str.split(sep)` on `String`. -/
def pySplit (s : String) (sep : Char) : List String :=
  (pySplitData sep s.data).map String.mk

/-- Python `str.strip()` (whitespace at both ends; the inputs in question are
ASCII). -/
def pyStrip (s : String) : String :=
  String.mk
    (((s.data.dropWhile Char.isWhitespace).reverse.dropWhile
      Char.isWhitespace).reverse)

/-- Python `str.replace(' ', '')`: remove every space character. -/
def pyRemoveSpaces (s : String) : String :=
  String.mk (s.data.filter (fun c => c ≠ ' '))

/-- Python `c in s` membership test for a single character. -/
def pyContains (s : String) (c : Char) : Bool :=
  s.data.contains c

/-- Python `str.startswith(p)`. -/
def pyStartsWith (s p : String) : Bool :=
  p.data.isPrefixOf s.data

/-- Python `str.lower()` (ASCII). -/
def pyLower (s : String) : String :=
  String.mk (s.data.map Char.toLower)

/-- Value of a list of decimal digit characters. -/
def digitsToNat (l : List Char) : ℕ :=
  l.foldl (fun n c => n * 10 + (c.toNat - 48)) 0

/-- Python `int(s)` on the simple numeral strings reaching `parse_period`
(an optional sign followed by decimal digits; anything else raises
`ValueError`, modelled by `none`). -/
def pyInt (s : String) : Option ℤ :=
  match s.data with
  | [] => none
  | '-' :: rest =>
    if rest ≠ [] ∧ rest.all Char.isDigit then some (-(digitsToNat rest : ℤ))
    else none
  | '+' :: rest =>
    if rest ≠ [] ∧ rest.all Char.isDigit then some ((digitsToNat rest : ℤ))
    else none
  | l =>
    if l.all Char.isDigit then some ((digitsToNat l : ℤ)) else none

/-! ### Period parsing -/

/-- Insertion into the `years` set (Python `set.add`), with the set carried
as a duplicate-free list. -/
def insertYear (y : ℤ) (ys : List ℤ) : List ℤ :=
  if y ∈ ys then ys else y :: ys

/-- The integer list of Python `range(s, e + 1)`. -/
def intRange (s e : ℤ) : List ℤ :=
  (List.range (e + 1 - s).toNat).map (fun n => s + n)

/-- Processing of one comma-separated component of the period string: a
component containing `-` is parsed as an inclusive range (unpack failure or a
non-integer piece raises `ValueError`, giving the `range_parsing_error`
warning; bound or order violations give `range_out_of_bounds`); any other
component is parsed as a single year (`not_a_year` / `year_out_of_bounds`
warnings).  The accumulator is the `years` set with the warning keys emitted
so far. -/
def parsePeriodStep (acc : List ℤ × List String) (part : String) :
    List ℤ × List String :=
  if pyContains part '-' then
    match (pySplit part '-').map pyInt with
    | [some s, some e] =>
      if 1900 ≤ s ∧ s ≤ 2100 ∧ 1900 ≤ e ∧ e ≤ 2100 ∧ s ≤ e then
        ((intRange s e).foldl (fun ys y => insertYear y ys) acc.1, acc.2)
      else (acc.1, acc.2 ++ ["range_out_of_bounds"])
    | _ => (acc.1, acc.2 ++ ["range_parsing_error"])
  else
    match pyInt part with
    | some y =>
      if 1900 ≤ y ∧ y ≤ 2100 then (insertYear y acc.1, acc.2)
      else (acc.1, acc.2 ++ ["year_out_of_bounds"])
    | none => (acc.1, acc.2 ++ ["not_a_year"])

/-- Embedding of `parse_period(period_str)`: spaces are removed, the string
is split on commas, blank components are dropped, each component contributes
years or a warning, and the result is the sorted year list; an empty year set
yields `[]` together with the `no_correct_years` error (the final `Bool`).
Warnings are reported as their translation keys. -/
def parse_period (period_str : String) : List ℤ × List String × Bool :=
  let parts :=
    ((pySplit (pyRemoveSpaces period_str) ',').map pyStrip).filter
      (fun p => p ≠ "")
  let res := parts.foldl parsePeriodStep ([], [])
  if res.1 = [] then ([], res.2, true)
  else (res.1.insertionSort (fun a b => a ≤ b), res.2, false)

/-! ### Input validation -/

/-- The two fields of an input work item read by `validate_and_clean_data`:
the `DOI` value (absent key modelled as `none`; the empty string is also
falsy for `if not item.get('DOI')`), and the `created.date-parts` list of
integer lists (`none` when `created` or `date-parts` is missing, in which
case the probe defaults to `[[]]`). -/
structure InputItem where
  DOI : Option String
  created_date_parts : Option (List (List ℤ))

/-- A validated item: the normalized DOI written back into the record
(`item['DOI'] = doi`) with the rest of the item unchanged. -/
structure CleanItem where
  DOI : String
  created_date_parts : Option (List (List ℤ))
deriving DecidableEq

/-- Python `.lower().strip()` applied to a DOI string. -/
def pyLowerStrip (s : String) : String :=
  pyStrip (pyLower s)

/-- Outcome of `validate_and_clean_data` for one item: skipped (counted),
kept (with normalized DOI), or an uncaught `IndexError` — the probe
`item.get('created', {}).get('date-parts', [[]])[0]` indexes position 0, so a
present-but-empty `date-parts` list raises. -/
inductive ItemStep where
  | skip
  | keep (c : CleanItem)
  | indexError
deriving DecidableEq

/-- Per-item branch structure of `validate_and_clean_data`: a falsy or
missing DOI skips; a normalized DOI not starting with `10.` skips; then the
first `date-parts` entry must exist and be nonempty with year at least
1900, otherwise the item skips. -/
def validateStep (item : InputItem) : ItemStep :=
  match item.DOI with
  | none => .skip
  | some d0 =>
    if d0 = "" then .skip
    else
      if ¬ pyStartsWith (pyLowerStrip d0) "10." then .skip
      else
        match (item.created_date_parts.getD [[]]).head? with
        | none => .indexError
        | some date_parts =>
          match date_parts with
          | [] => .skip
          | y :: _ =>
            if y < 1900 then .skip
            else .keep ⟨pyLowerStrip d0, item.created_date_parts⟩

/-- Embedding of `validate_and_clean_data(items)`: items are scanned in
order, each either appended to `validated` (with normalized DOI) or counted
in `skipped_count`; the one uncaught exception path propagates as `none`.
Returns `(validated, skipped_count)`. -/
def validate_and_clean_data : List InputItem → Option (List CleanItem × ℕ)
  | [] => some ([], 0)
  | item :: rest =>
    match validateStep item with
    | .indexError => none
    | .skip => (validate_and_clean_data rest).map (fun r => (r.1, r.2 + 1))
    | .keep c => (validate_and_clean_data rest).map (fun r => (c :: r.1, r.2))

/-! ## Theorems -/

theorem afterFailures_min (k idx : ℕ) :
    afterFailures (k + 1) idx = min (idx + (k + 1)) 6 := by
  induction k generalizing idx with
  | zero =>
    simp [afterFailures, AdaptiveDelayer.wait, DELAYS]
  | succ k ih =>
    show afterFailures (k + 1) (AdaptiveDelayer.wait false idx).2 = _
    rw [ih]
    simp only [AdaptiveDelayer.wait, DELAYS, Bool.false_eq_true, if_false]
    simp only [List.length_cons, List.length_nil]
    omega

/-- C4: `wait(success=True)` resets the index to 0 and returns the first
entry of the delay table, which is its minimum and the table is ascending;
`wait(success=False)` advances the index by one capped at the last table
position and returns the entry at the new index; after `k ≥ 1` consecutive
failures starting from a reset delayer the index is `min k (len - 1)` and the
`k`-th failure call returned the table entry at that position. -/
theorem adaptiveDelayer_wait_spec :
    List.Chain' (· ≤ ·) DELAYS ∧
    (∀ idx, AdaptiveDelayer.wait true idx = (1/5, 0) ∧
      DELAYS.getD 0 0 = 1/5 ∧ ∀ d ∈ DELAYS, 1/5 ≤ d) ∧
    (∀ idx,
      (AdaptiveDelayer.wait false idx).2 = min (idx + 1) (DELAYS.length - 1) ∧
      (AdaptiveDelayer.wait false idx).1 =
        DELAYS.getD (min (idx + 1) (DELAYS.length - 1)) 0) ∧
    (∀ k, 1 ≤ k →
      afterFailures k 0 = min k (DELAYS.length - 1) ∧
      (AdaptiveDelayer.wait false (afterFailures (k - 1) 0)).1 =
        DELAYS.getD (min k (DELAYS.length - 1)) 0) := by
  refine ⟨?_, fun idx => ⟨rfl, rfl, ?_⟩, fun idx => ⟨rfl, rfl⟩, ?_⟩
  · simp only [DELAYS, List.chain'_cons, List.chain'_singleton, and_true]
    norm_num
  · simp only [DELAYS, List.mem_cons, List.not_mem_nil, or_false, forall_eq_or_imp,
      forall_eq]
    norm_num
  intro k hk
  obtain ⟨m, rfl⟩ : ∃ m, k = m + 1 := ⟨k - 1, by omega⟩
  constructor
  · rw [afterFailures_min]
    simp [DELAYS]
  · cases m with
    | zero => simp [afterFailures, AdaptiveDelayer.wait, DELAYS]
    | succ m =>
      have h1 : (m + 1 + 1) - 1 = m + 1 := by omega
      rw [h1, afterFailures_min]
      simp only [AdaptiveDelayer.wait, DELAYS, Bool.false_eq_true, if_false,
        List.length_cons, List.length_nil]
      congr 1
      omega

/-- Closed instance of `adaptiveDelayer_wait_spec`: nine consecutive failures
saturate the index at the last table position and return its entry. -/
theorem adaptiveDelayer_wait_spec_witness :
    afterFailures 9 0 = min 9 (DELAYS.length - 1) ∧
    (AdaptiveDelayer.wait false (afterFailures 8 0)).1 =
      DELAYS.getD (min 9 (DELAYS.length - 1)) 0 :=
  adaptiveDelayer_wait_spec.2.2.2 9 (by decide)

theorem wait_if_needed_length_le (N : ℕ) (hN : 1 ≤ N) (now : ℚ)
    (st : List ℚ) (h : st.length ≤ N) :
    (RateLimiter.wait_if_needed N now st).length ≤ N := by
  unfold RateLimiter.wait_if_needed
  have hp : (st.filter (fun ts => now - ts < 1)).length ≤ st.length :=
    List.length_filter_le _ _
  by_cases hc : N ≤ (st.filter (fun ts => now - ts < 1)).length
  · simp only [hc, if_true, List.length_append, List.length_tail,
      List.length_cons, List.length_nil]
    omega
  · simp only [hc, if_false, List.length_append, List.length_cons,
      List.length_nil]
    omega

theorem wait_if_needed_recent (N : ℕ) (now : ℚ) (st : List ℚ) :
    ∀ t ∈ RateLimiter.wait_if_needed N now st, now - t < 1 := by
  intro t ht
  unfold RateLimiter.wait_if_needed at ht
  rcases List.mem_append.mp ht with h | h
  · have hmem : t ∈ st.filter (fun ts => now - ts < 1) := by
      by_cases hc : N ≤ (st.filter (fun ts => now - ts < 1)).length
      · simp only [hc, if_true] at h
        exact List.mem_of_mem_tail h
      · simpa only [hc, if_false] using h
    have := List.of_mem_filter hmem
    exact of_decide_eq_true this
  · simp only [List.mem_singleton] at h
    subst h
    norm_num

theorem run_length_le (N : ℕ) (hN : 1 ≤ N) (times : List ℚ) :
    (RateLimiter.run N times).length ≤ N := by
  suffices h : ∀ st : List ℚ, st.length ≤ N →
      (times.foldl (fun s now => RateLimiter.wait_if_needed N now s) st).length ≤ N by
    exact h [] (by simp)
  induction times with
  | nil => intro st hst; simpa using hst
  | cons t ts ih =>
    intro st hst
    exact ih _ (wait_if_needed_length_le N hN t st hst)

/-- C3: across any sequence of `wait_if_needed` calls on one limiter, the
recorded timestamp list never holds more than the capacity `N ≥ 1`, and after
a call at time `now` every recorded timestamp lies within the trailing
one-second window of `now`; the capacity of the shared limiter instance is 8. -/
theorem rateLimiter_window_bound (N : ℕ) (hN : 1 ≤ N) (times : List ℚ)
    (now : ℚ) :
    (RateLimiter.run N times).length ≤ N ∧
    (∀ t ∈ RateLimiter.run N (times ++ [now]), now - t < 1) ∧
    rate_limiter_calls_per_second = 8 := by
  refine ⟨run_length_le N hN times, ?_, rfl⟩
  intro t ht
  have hrw : RateLimiter.run N (times ++ [now]) =
      RateLimiter.wait_if_needed N now (RateLimiter.run N times) := by
    unfold RateLimiter.run
    rw [List.foldl_append]
    rfl
  rw [hrw] at ht
  exact wait_if_needed_recent N now _ t ht

/-- Closed instance of `rateLimiter_window_bound` at the shared instance's
capacity 8 and a concrete call sequence. -/
theorem rateLimiter_window_bound_witness :
    (RateLimiter.run 8 [0, 1/4, 1/2]).length ≤ 8 ∧
    rate_limiter_calls_per_second = 8 :=
  ⟨(rateLimiter_window_bound 8 (by decide) [0, 1/4, 1/2] 1).1,
   (rateLimiter_window_bound 8 (by decide) [0, 1/4, 1/2] 1).2.2⟩

theorem crossrefRetryLoop_allFail (α : Type) (attempts : ℕ → Attempt α)
    (h : ∀ k d, attempts k ≠ Attempt.ok d) :
    ∀ r k idx, crossrefRetryLoop α attempts k r idx = (none, afterFailures r idx, r) := by
  intro r
  induction r with
  | zero => intro k idx; rfl
  | succ r ih =>
    intro k idx
    unfold crossrefRetryLoop
    cases ha : attempts k with
    | ok d => exact absurd ha (h k d)
    | notOk =>
      simp only [ih (k + 1)]
      rfl
    | exc =>
      simp only [ih (k + 1)]
      rfl

theorem journalRetryLoop_allFail (attempts : ℕ → SourcesAttempt)
    (h : ∀ k n, attempts k ≠ SourcesAttempt.okFound n) :
    ∀ r k idx, journalRetryLoop attempts k r idx = (none, afterFailures r idx, r) := by
  intro r
  induction r with
  | zero => intro k idx; rfl
  | succ r ih =>
    intro k idx
    unfold journalRetryLoop
    cases ha : attempts k with
    | okFound n => exact absurd ha (h k n)
    | okEmpty => simp only [ih (k + 1)]; rfl
    | notOk => simp only [ih (k + 1)]; rfl
    | exc => simp only [ih (k + 1)]; rfl

/-- C2: on a cache miss with a well-formed key, when every attempt yields a
non-200 response or an exception (and, for the name lookup, also when a 200
response carries an empty result set), `get_crossref_metadata` returns `None`
and `get_journal_name` returns the `'journal_not_found'` sentinel, each after
exactly `RETRIES = 3` attempts with exactly 3 failure-path calls to the
Adaptive Delayer, and neither raises (both are total and return normally). -/
theorem retry_exhaustion_spec (α : Type) (doi : String)
    (attempts : ℕ → Attempt α) (sAttempts : ℕ → SourcesAttempt) (idx jdx : ℕ)
    (hdoi : ¬(doi = "" ∨ doi = "N/A"))
    (hfail : ∀ k d, attempts k ≠ Attempt.ok d)
    (hsfail : ∀ k n, sAttempts k ≠ SourcesAttempt.okFound n) :
    get_crossref_metadata α doi none attempts idx =
      (none, afterFailures RETRIES idx, RETRIES) ∧
    get_journal_name none sAttempts jdx =
      (journal_not_found_text, afterFailures RETRIES jdx, RETRIES) := by
  constructor
  · unfold get_crossref_metadata
    rw [if_neg hdoi]
    exact crossrefRetryLoop_allFail α attempts hfail RETRIES 0 idx
  · unfold get_journal_name
    rw [journalRetryLoop_allFail sAttempts hsfail RETRIES 0 jdx]
    rfl

/-- Closed instance of `retry_exhaustion_spec`: an endpoint that always
answers non-200. -/
theorem retry_exhaustion_spec_witness :
    get_crossref_metadata Unit "10.1/x" none (fun _ => Attempt.notOk) 0 =
      (none, afterFailures RETRIES 0, RETRIES) ∧
    get_journal_name none (fun _ => SourcesAttempt.notOk) 0 =
      (journal_not_found_text, afterFailures RETRIES 0, RETRIES) :=
  retry_exhaustion_spec Unit "10.1/x" (fun _ => Attempt.notOk)
    (fun _ => SourcesAttempt.notOk) 0 0 (by decide)
    (fun _ _ h => nomatch h) (fun _ _ h => nomatch h)

theorem citingPagesLoop_emptyPages (fuel : ℕ) :
    ∀ req acc,
      citingPagesLoop Unit (fun _ => true) emptyPageApi fuel req (some "*") acc =
        none := by
  induction fuel with
  | zero => intro req acc; rfl
  | succ fuel ih =>
    intro req acc
    show citingPagesLoop Unit (fun _ => true) emptyPageApi (fuel + 1) req
      (some "*") acc = none
    unfold citingPagesLoop
    simp only [cursorTruthy, RETRIES, pageRetry, emptyPageApi,
      List.filter_nil, List.append_nil]
    exact ih (req + 1) acc

/-- C1 counterexample: against a paginated API that always answers 200 with a
cursor and an empty items array, the citing-works fetch loop of
`get_citing_dois_and_metadata` never terminates — no amount of fuel makes the
embedded loop return — because that loop, unlike the works-by-ISSN loop, has
no zero-new-items break. -/
theorem citing_loop_diverges_on_empty_pages :
    ¬ citingLoopTerminates Unit (fun _ => true) emptyPageApi := by
  rintro ⟨fuel, hsome⟩
  rw [citingPagesLoop_emptyPages fuel 0 []] at hsome
  exact Bool.noConfusion hsome

/-- C1 amended: both pagination loops terminate as soon as the cursor is
absent (Python-falsy); the works-by-ISSN/date loop additionally terminates on
the first page that contributes zero new items — in particular against an
API that always returns a cursor together with an empty items array — while
the citing-works loop has no such check (see
`citing_loop_diverges_on_empty_pages`). -/
theorem pagination_termination_spec (α : Type) (hasDoi : α → Bool)
    (api apiE : ℕ → PageResp α)
    (hempty : ∀ r, ∃ cur, apiE r = PageResp.ok [] cur) :
    (∀ fuel req acc, 1 ≤ fuel →
      citingPagesLoop α hasDoi api fuel req none acc = some acc) ∧
    (∀ fuel req acc, 1 ≤ fuel →
      articlesPagesLoop α api fuel req none acc = some acc) ∧
    (∀ fuel req cursor acc, 1 ≤ fuel →
      articlesPagesLoop α apiE fuel req cursor acc = some acc) := by
  refine ⟨?_, ?_, ?_⟩
  · intro fuel req acc hfuel
    obtain ⟨f, rfl⟩ : ∃ f, fuel = f + 1 := ⟨fuel - 1, by omega⟩
    rfl
  · intro fuel req acc hfuel
    obtain ⟨f, rfl⟩ : ∃ f, fuel = f + 1 := ⟨fuel - 1, by omega⟩
    rfl
  · intro fuel req cursor acc hfuel
    obtain ⟨f, rfl⟩ : ∃ f, fuel = f + 1 := ⟨fuel - 1, by omega⟩
    show articlesPagesLoop α apiE (f + 1) req cursor acc = some acc
    unfold articlesPagesLoop
    cases hcur : cursorTruthy cursor with
    | false => simp
    | true =>
      simp only [hcur, if_true]
      obtain ⟨cur, hc⟩ := hempty req
      have hpr : pageRetry α apiE req RETRIES = (req + 1, some ([], cur)) := by
        show pageRetry α apiE req 3 = _
        unfold pageRetry
        rw [hc]
      rw [hpr]
      simp

/-- Closed instance of `pagination_termination_spec`: cursor-absent
termination of the citing loop and empty-page termination of the
works-by-ISSN loop, both against the constant empty-page API. -/
theorem pagination_termination_spec_witness :
    citingPagesLoop Unit (fun _ => true) emptyPageApi 5 0 none [] = some [] ∧
    articlesPagesLoop Unit emptyPageApi 5 0 (some "*") [] = some [] :=
  ⟨(pagination_termination_spec Unit (fun _ => true) emptyPageApi emptyPageApi
      (fun _ => ⟨some "*", rfl⟩)).1 5 0 [] (by decide),
   (pagination_termination_spec Unit (fun _ => true) emptyPageApi emptyPageApi
      (fun _ => ⟨some "*", rfl⟩)).2.2 5 0 (some "*") [] (by decide)⟩

theorem hIndexLoop_ge : ∀ (s : List ℕ) (j : ℕ), j ≤ hIndexLoop s j := by
  intro s
  induction s with
  | nil => intro j; exact le_refl j
  | cons c rest ih =>
    intro j
    unfold hIndexLoop
    by_cases hc : j + 1 ≤ c
    · rw [if_pos hc]
      exact le_trans (Nat.le_succ j) (ih (j + 1))
    · rw [if_neg hc]

theorem hIndexLoop_getD : ∀ (s : List ℕ) (j k : ℕ),
    k < hIndexLoop s j - j → j + k + 1 ≤ s.getD k 0 := by
  intro s
  induction s with
  | nil =>
    intro j k hk
    unfold hIndexLoop at hk
    omega
  | cons c rest ih =>
    intro j k hk
    unfold hIndexLoop at hk
    by_cases hc : j + 1 ≤ c
    · rw [if_pos hc] at hk
      cases k with
      | zero => simpa using hc
      | succ k =>
        rw [List.getD_cons_succ]
        have hge := hIndexLoop_ge rest (j + 1)
        have hk' : k < hIndexLoop rest (j + 1) - (j + 1) := by omega
        have := ih (j + 1) k hk'
        omega
    · rw [if_neg hc] at hk
      omega

theorem hIndexLoop_stop : ∀ (s : List ℕ) (j : ℕ),
    hIndexLoop s j - j < s.length →
    s.getD (hIndexLoop s j - j) 0 < hIndexLoop s j + 1 := by
  intro s
  induction s with
  | nil =>
    intro j h
    unfold hIndexLoop at h
    simp only [List.length_nil] at h
    omega
  | cons c rest ih =>
    intro j h
    by_cases hc : j + 1 ≤ c
    · have hH : hIndexLoop (c :: rest) j = hIndexLoop rest (j + 1) := by
        rw [show hIndexLoop (c :: rest) j =
          if j + 1 ≤ c then hIndexLoop rest (j + 1) else j from rfl, if_pos hc]
      rw [hH] at h ⊢
      have hge := hIndexLoop_ge rest (j + 1)
      have hsub : hIndexLoop rest (j + 1) - j =
          (hIndexLoop rest (j + 1) - (j + 1)) + 1 := by omega
      rw [hsub, List.getD_cons_succ]
      apply ih (j + 1)
      simp only [List.length_cons] at h
      omega
    · have hH : hIndexLoop (c :: rest) j = j := by
        rw [show hIndexLoop (c :: rest) j =
          if j + 1 ≤ c then hIndexLoop rest (j + 1) else j from rfl, if_neg hc]
      rw [hH] at h ⊢
      simp only [Nat.sub_self, List.getD_cons_zero]
      omega

theorem sortDescending_sorted (l : List ℕ) :
    (sortDescending l).Sorted (fun a b => b ≤ a) := by
  haveI : IsTotal ℕ (fun a b => b ≤ a) := ⟨fun a b => le_total b a⟩
  haveI : IsTrans ℕ (fun a b => b ≤ a) := ⟨fun _ _ _ h1 h2 => le_trans h2 h1⟩
  exact List.sorted_insertionSort _ l

theorem sortDescending_eq_of_perm {l l' : List ℕ} (h : l.Perm l') :
    sortDescending l = sortDescending l' := by
  haveI : IsAntisymm ℕ (fun a b => b ≤ a) := ⟨fun _ _ h1 h2 => le_antisymm h2 h1⟩
  exact List.eq_of_perm_of_sorted
    ((List.perm_insertionSort _ l).trans (h.trans (List.perm_insertionSort _ l').symm))
    (sortDescending_sorted l) (sortDescending_sorted l')

theorem sortedDesc_getD_le (s : List ℕ) (hs : s.Sorted (fun a b => b ≤ a))
    (i j : ℕ) (hij : i ≤ j) (hj : j < s.length) :
    s.getD j 0 ≤ s.getD i 0 := by
  have hi : i < s.length := lt_of_le_of_lt hij hj
  rw [List.getD_eq_getElem s 0 hj, List.getD_eq_getElem s 0 hi]
  rcases eq_or_lt_of_le hij with rfl | hlt
  · exact le_refl _
  · have hfin : (⟨i, hi⟩ : Fin s.length) < ⟨j, hj⟩ := hlt
    have := hs.rel_get_of_lt hfin
    simpa using this

/-- C5: the H-index of `enhanced_stats_calculation` sorts the per-work
citing-edge counts descending and takes the largest 1-based position whose
value reaches it: for `[10, 8, 5, 4, 3]` it is 4, it depends only on the
multiset of counts (any permutation yields the same integer), and a 1-based
position `i` within the sorted list satisfies `i`-th value `≥ i` exactly when
`i` is at most the computed H-index. -/
theorem h_index_spec :
    h_index [10, 8, 5, 4, 3] = 4 ∧
    (∀ l l' : List ℕ, l.Perm l' → h_index l = h_index l') ∧
    (∀ (l : List ℕ) (i : ℕ), 1 ≤ i → i ≤ (sortDescending l).length →
      (i ≤ (sortDescending l).getD (i - 1) 0 ↔ i ≤ h_index l)) := by
  refine ⟨by decide, ?_, ?_⟩
  · intro l l' h
    unfold h_index
    rw [sortDescending_eq_of_perm h]
  · intro l i hi hlen
    constructor
    · intro hval
      by_contra hcon
      push_neg at hcon
      have hH : h_index l = hIndexLoop (sortDescending l) 0 := rfl
      rw [hH] at hcon
      have hHlt : hIndexLoop (sortDescending l) 0 < (sortDescending l).length := by
        omega
      have hstop := hIndexLoop_stop (sortDescending l) 0 (by simpa using hHlt)
      rw [Nat.sub_zero] at hstop
      have hanti := sortedDesc_getD_le (sortDescending l) (sortDescending_sorted l)
        (hIndexLoop (sortDescending l) 0) (i - 1) (by omega) (by omega)
      have hval' : i ≤ (sortDescending l).getD (i - 1) 0 := hval
      omega
    · intro hle
      have hH : h_index l = hIndexLoop (sortDescending l) 0 := rfl
      rw [hH] at hle
      have := hIndexLoop_getD (sortDescending l) 0 (i - 1) (by omega)
      omega

/-- Closed instance of `h_index_spec`: permutation invariance and the
largest-index characterization at concrete inputs. -/
theorem h_index_spec_witness :
    h_index [3, 1, 10] = h_index [10, 3, 1] ∧
    (2 ≤ (sortDescending [3, 1, 10]).getD 1 0 ↔ 2 ≤ h_index [3, 1, 10]) :=
  ⟨h_index_spec.2.1 [3, 1, 10] [10, 3, 1] (by decide),
   h_index_spec.2.2 [3, 1, 10] 2 (by decide) (by decide)⟩

theorem pyRoundTo_zero (d : ℕ) : pyRoundTo d 0 = 0 := by
  unfold pyRoundTo pyRound
  norm_num

theorem foldl_fwciStep_none (metas : List WorkMeta)
    (h : ∀ m ∈ metas, m.openalex = none) :
    ∀ s : FwciScan, metas.foldl fwciStep s = s := by
  induction metas with
  | nil => intro s; rfl
  | cons m rest ih =>
    intro s
    have hm : m.openalex = none := h m (List.mem_cons_self m rest)
    have hrest : ∀ m ∈ rest, m.openalex = none :=
      fun x hx => h x (List.mem_cons_of_mem m hx)
    rw [List.foldl_cons, show fwciStep s m = s by simp [fwciStep, hm]]
    exact ih hrest s

theorem oaCitationsSplit_none (metas : List WorkMeta)
    (h : ∀ m ∈ metas, m.openalex = none) :
    oaCitationsSplit metas = ([], []) := by
  induction metas with
  | nil => rfl
  | cons m rest ih =>
    have hm : m.openalex = none := h m (List.mem_cons_self m rest)
    have hrest : ∀ m ∈ rest, m.openalex = none :=
      fun x hx => h x (List.mem_cons_of_mem m hx)
    unfold oaCitationsSplit
    rw [List.foldr_cons]
    unfold oaCitationsSplit at ih
    rw [ih hrest, hm]

/-- C6: records whose graph (OpenAlex) half is `None` contribute nothing to
`calculate_fwci_fast` and `calculate_oa_impact_premium_fast` — a list of such
records yields each aggregator's zero/empty default without raising — and a
record whose graph half is present but has every sub-field (citation count,
concepts list, type, open-access flag) absent likewise degrades to the zero
defaults. -/
theorem missing_graph_half_defaults :
    (∀ metas : List WorkMeta, (∀ m ∈ metas, m.openalex = none) →
      calculate_fwci_fast metas =
        (if metas.isEmpty then fwciNoData else fwciNoCitations) ∧
      calculate_oa_impact_premium_fast metas = ⟨0, 0, 0, 0, 0⟩) ∧
    (calculate_fwci_fast [⟨none, some ⟨none, none, none, none, none⟩⟩] =
        fwciNoCitations ∧
      calculate_oa_impact_premium_fast
          [⟨none, some ⟨none, none, none, none, none⟩⟩] = ⟨0, 0, 1, 0, 0⟩) := by
  have hmean0 : listMeanQ [0] = 0 := by unfold listMeanQ; norm_num
  have hmeanNil : listMeanQ [] = 0 := rfl
  constructor
  · intro metas h
    constructor
    · by_cases he : metas.isEmpty = true
      · simp [calculate_fwci_fast, he]
      · have hfold := foldl_fwciStep_none metas h ⟨0, 0, 0, []⟩
        simp [calculate_fwci_fast, he, hfold]
    · have hsplit := oaCitationsSplit_none metas h
      unfold calculate_oa_impact_premium_fast
      rw [hsplit]
      simp [hmeanNil, pyRoundTo_zero]
  · constructor
    · decide
    · have hsplit :
          oaCitationsSplit [⟨none, some ⟨none, none, none, none, none⟩⟩] =
            ([], [0]) := by decide
      unfold calculate_oa_impact_premium_fast
      rw [hsplit]
      simp [hmean0, hmeanNil, pyRoundTo_zero]

/-- Closed instance of `missing_graph_half_defaults` at a one-record list
whose graph half is `None`. -/
theorem missing_graph_half_defaults_witness :
    calculate_fwci_fast [⟨none, none⟩] = fwciNoCitations ∧
    calculate_oa_impact_premium_fast [⟨none, none⟩] = ⟨0, 0, 0, 0, 0⟩ := by
  have h := missing_graph_half_defaults.1 [⟨none, none⟩]
    (by intro m hm; rw [List.mem_singleton] at hm; subst hm; rfl)
  exact ⟨by simpa using h.1, h.2⟩

theorem floor_le_pyRound (q : ℚ) : ⌊q⌋ ≤ pyRound q := by
  simp only [pyRound]
  split_ifs <;> omega

theorem pyRound_le_floor_add_one (q : ℚ) : pyRound q ≤ ⌊q⌋ + 1 := by
  simp only [pyRound]
  split_ifs <;> omega

theorem pyRound_nonneg (q : ℚ) (h : 0 ≤ q) : 0 ≤ pyRound q :=
  le_trans (Int.floor_nonneg.mpr h) (floor_le_pyRound q)

theorem pyRound_le_int (q : ℚ) (n : ℤ) (h : q ≤ n) : pyRound q ≤ n := by
  have hfl : ⌊q⌋ ≤ n := by
    have := Int.floor_le_floor h
    simpa using this
  rcases lt_or_eq_of_le hfl with hlt | heq
  · have := pyRound_le_floor_add_one q
    omega
  · have hq : q = (n : ℚ) := by
      have h1 : (n : ℚ) ≤ q := by
        rw [← heq]
        exact_mod_cast Int.floor_le q
      exact le_antisymm h h1
    subst hq
    unfold pyRound
    rw [Int.floor_intCast]
    norm_num

theorem pyRoundTo_nonneg (d : ℕ) (q : ℚ) (h : 0 ≤ q) : 0 ≤ pyRoundTo d q := by
  unfold pyRoundTo
  apply div_nonneg
  · exact_mod_cast pyRound_nonneg _ (mul_nonneg h (by positivity))
  · positivity

theorem pyRoundTo_le_int (d : ℕ) (q : ℚ) (n : ℤ) (h : q ≤ n) :
    pyRoundTo d q ≤ n := by
  unfold pyRoundTo
  rw [div_le_iff₀ (by positivity)]
  have h3 : pyRound (q * (10 : ℚ) ^ d) ≤ n * (10 : ℤ) ^ d := by
    apply pyRound_le_int
    push_cast
    exact mul_le_mul_of_nonneg_right h (by positivity)
  calc ((pyRound (q * (10 : ℚ) ^ d) : ℤ) : ℚ) ≤ ((n * (10 : ℤ) ^ d : ℤ) : ℚ) := by
        exact_mod_cast h3
    _ = (n : ℚ) * (10 : ℚ) ^ d := by push_cast; ring

theorem jscrCounts_le (jc : String) :
    ∀ (cm : List (Option CitingRecord)) (acc : ℕ × ℕ), acc.1 ≤ acc.2 →
      (jscrCounts cm jc acc).1 ≤ (jscrCounts cm jc acc).2 := by
  intro cm
  induction cm with
  | nil => intro acc h; exact h
  | cons c rest ih =>
    intro acc h
    cases c with
    | none => exact ih acc h
    | some c =>
      apply ih
      by_cases hm : citingMatches c jc = true
      · rw [if_pos hm]; omega
      · rw [if_neg hm]; omega

theorem jscrCounts_nomatch (jc : String) :
    ∀ (cm : List (Option CitingRecord)) (acc : ℕ × ℕ),
      (∀ c ∈ cm.reduceOption, citingMatches c jc = false) →
      (jscrCounts cm jc acc).1 = acc.1 := by
  intro cm
  induction cm with
  | nil => intro acc _; rfl
  | cons c rest ih =>
    intro acc h
    cases c with
    | none =>
      apply ih
      intro x hx
      apply h
      rw [List.reduceOption_cons_of_none]
      exact hx
    | some c =>
      have hc : citingMatches c jc = false := by
        apply h
        rw [List.reduceOption_cons_of_some]
        exact List.mem_cons_self c _
      show (jscrCounts rest jc
        ((if citingMatches c jc then acc.1 + 1 else acc.1), acc.2 + 1)).1 = acc.1
      rw [hc]
      simp only [Bool.false_eq_true, if_false]
      apply ih
      intro x hx
      apply h
      rw [List.reduceOption_cons_of_some]
      exact List.mem_cons_of_mem c hx

/-- C7: the journal self-citation rate counts citing-edge records whose host
ISSN (hyphens stripped, uppercased) equals the analyzed journal's normalized
ISSN; `JSCR` equals matches over counted citing edges times 100 (rounded to
two decimals) with the division guarded; the rate always lies in `[0, 100]`,
and it is 0 when no citing edge matches. -/
theorem jscr_spec (cm : List (Option CitingRecord)) (ji : Option String) :
    0 ≤ (calculate_jscr_fast cm ji).JSCR ∧
    (calculate_jscr_fast cm ji).JSCR ≤ 100 ∧
    (calculate_jscr_fast cm ji).self_cites ≤
      (calculate_jscr_fast cm ji).total_cites ∧
    ((calculate_jscr_fast cm ji).total_cites ≠ 0 →
      (calculate_jscr_fast cm ji).JSCR =
        pyRoundTo 2 (((calculate_jscr_fast cm ji).self_cites : ℚ) /
          ((calculate_jscr_fast cm ji).total_cites : ℚ) * 100)) ∧
    ((∀ c ∈ cm.reduceOption,
        citingMatches c (jscrJournalClean ji) = false) →
      (calculate_jscr_fast cm ji).JSCR = 0) := by
  by_cases he : cm.isEmpty = true
  · have hres : calculate_jscr_fast cm ji = ⟨0, 0, 0, none⟩ := by
      simp [calculate_jscr_fast, he]
    rw [hres]
    exact ⟨le_refl 0, by norm_num, le_refl 0,
      fun h0 => absurd rfl h0, fun _ => rfl⟩
  · have hres : calculate_jscr_fast cm ji =
        ⟨(if 0 < (jscrCounts cm (jscrJournalClean ji) (0, 0)).2 then
            pyRoundTo 2 (((jscrCounts cm (jscrJournalClean ji) (0, 0)).1 : ℚ) /
              ((jscrCounts cm (jscrJournalClean ji) (0, 0)).2 : ℚ) * 100)
          else 0),
         (jscrCounts cm (jscrJournalClean ji) (0, 0)).1,
         (jscrCounts cm (jscrJournalClean ji) (0, 0)).2,
         some (jscrJournalClean ji)⟩ := by
      simp only [calculate_jscr_fast, he, Bool.false_eq_true, if_false]
    have hle : (jscrCounts cm (jscrJournalClean ji) (0, 0)).1 ≤
        (jscrCounts cm (jscrJournalClean ji) (0, 0)).2 :=
      jscrCounts_le (jscrJournalClean ji) cm (0, 0) (le_refl 0)
    rw [hres]
    by_cases ht : 0 < (jscrCounts cm (jscrJournalClean ji) (0, 0)).2
    · have hq0 : (0 : ℚ) ≤
          ((jscrCounts cm (jscrJournalClean ji) (0, 0)).1 : ℚ) /
            ((jscrCounts cm (jscrJournalClean ji) (0, 0)).2 : ℚ) * 100 := by
        positivity
      have hq100 :
          ((jscrCounts cm (jscrJournalClean ji) (0, 0)).1 : ℚ) /
            ((jscrCounts cm (jscrJournalClean ji) (0, 0)).2 : ℚ) * 100 ≤
          ((100 : ℤ) : ℚ) := by
        have hc1 : ((jscrCounts cm (jscrJournalClean ji) (0, 0)).1 : ℚ) ≤
            ((jscrCounts cm (jscrJournalClean ji) (0, 0)).2 : ℚ) := by
          exact_mod_cast hle
        have hc2 : (0 : ℚ) <
            ((jscrCounts cm (jscrJournalClean ji) (0, 0)).2 : ℚ) := by
          exact_mod_cast ht
        push_cast
        rw [div_mul_eq_mul_div, div_le_iff₀ hc2]
        nlinarith
      refine ⟨?_, ?_, hle, ?_, ?_⟩
      · rw [if_pos ht]
        exact pyRoundTo_nonneg 2 _ hq0
      · rw [if_pos ht]
        have := pyRoundTo_le_int 2 _ 100 hq100
        simpa using this
      · intro _
        rw [if_pos ht]
      · intro hnm
        have h1 : (jscrCounts cm (jscrJournalClean ji) (0, 0)).1 = 0 :=
          jscrCounts_nomatch (jscrJournalClean ji) cm (0, 0) hnm
        rw [if_pos ht, h1]
        have hz : ((0 : ℕ) : ℚ) /
            ((jscrCounts cm (jscrJournalClean ji) (0, 0)).2 : ℚ) * 100 = 0 := by
          norm_num
        rw [hz, pyRoundTo_zero]
    · have ht0 : (jscrCounts cm (jscrJournalClean ji) (0, 0)).2 = 0 := by omega
      refine ⟨?_, ?_, hle, ?_, ?_⟩
      · rw [if_neg ht]
      · rw [if_neg ht]; norm_num
      · intro hne
        exact absurd ht0 hne
      · intro _
        rw [if_neg ht]

/-- Closed instance of `jscr_spec`: one citing record with no metadata halves
matches nothing, so the rate is 0. -/
theorem jscr_spec_witness :
    (calculate_jscr_fast [some ⟨some "10.9/z", none, none, none⟩]
      (some "1234-5678")).JSCR = 0 :=
  (jscr_spec [some ⟨some "10.9/z", none, none, none⟩]
    (some "1234-5678")).2.2.2.2 (by decide)

theorem insertYear_nodup (y : ℤ) (ys : List ℤ) (h : ys.Nodup) :
    (insertYear y ys).Nodup := by
  unfold insertYear
  split_ifs with hm
  · exact h
  · exact List.nodup_cons.mpr ⟨hm, h⟩

theorem foldl_insertYear_nodup (l : List ℤ) :
    ∀ ys : List ℤ, ys.Nodup →
      (l.foldl (fun ys y => insertYear y ys) ys).Nodup := by
  induction l with
  | nil => intro ys h; exact h
  | cons y rest ih =>
    intro ys h
    exact ih _ (insertYear_nodup y ys h)

theorem parsePeriodStep_nodup (acc : List ℤ × List String) (part : String)
    (h : acc.1.Nodup) : (parsePeriodStep acc part).1.Nodup := by
  unfold parsePeriodStep
  by_cases h1 : pyContains part '-' = true
  · rw [if_pos h1]
    split
    · split_ifs
      · exact foldl_insertYear_nodup _ _ h
      · exact h
    · exact h
  · rw [if_neg h1]
    split
    · split_ifs
      · exact insertYear_nodup _ _ h
      · exact h
    · exact h

theorem foldl_parsePeriodStep_nodup (parts : List String) :
    ∀ acc : List ℤ × List String, acc.1.Nodup →
      (parts.foldl parsePeriodStep acc).1.Nodup := by
  induction parts with
  | nil => intro acc h; exact h
  | cons p rest ih =>
    intro acc h
    exact ih _ (parsePeriodStep_nodup acc p h)

/-- C8: `parse_period` parses comma-separated single years and inclusive
ranges — `"2020-2022,2024"` yields exactly the sorted set
`{2020, 2021, 2022, 2024}` — drops out-of-range components (outside
1900–2100) with a warning, reports an error exactly when no valid year
remains, and always returns a strictly sorted (duplicate-free) year list. -/
theorem parse_period_spec :
    parse_period "2020-2022,2024" = ([2020, 2021, 2022, 2024], [], false) ∧
    parse_period "1899-2022,2024" = ([2024], ["range_out_of_bounds"], false) ∧
    parse_period "1800,2024" = ([2024], ["year_out_of_bounds"], false) ∧
    parse_period "20x0" = ([], ["not_a_year"], true) ∧
    parse_period "2150" = ([], ["year_out_of_bounds"], true) ∧
    (∀ s, List.Sorted (· < ·) (parse_period s).1) ∧
    (∀ s, ((parse_period s).2.2 = true ↔ (parse_period s).1 = [])) := by
  haveI hTot : IsTotal ℤ (fun a b : ℤ => a ≤ b) := ⟨fun a b => le_total a b⟩
  haveI hTrans : IsTrans ℤ (fun a b : ℤ => a ≤ b) := ⟨fun _ _ _ => le_trans⟩
  refine ⟨by decide, by decide, by decide, by decide, by decide, ?_, ?_⟩
  · intro s
    simp only [parse_period]
    split_ifs with h
    · exact List.sorted_nil
    · have hnd : ((((pySplit (pyRemoveSpaces s) ',').map pyStrip).filter
          (fun p => p ≠ "")).foldl parsePeriodStep ([], [])).1.Nodup :=
        foldl_parsePeriodStep_nodup _ ([], []) List.nodup_nil
      have hsorted : List.Sorted (fun a b : ℤ => a ≤ b)
          (((((pySplit (pyRemoveSpaces s) ',').map pyStrip).filter
            (fun p => p ≠ "")).foldl parsePeriodStep ([], [])).1.insertionSort
              (fun a b : ℤ => a ≤ b)) :=
        List.sorted_insertionSort _ _
      have hnd2 : ((((pySplit (pyRemoveSpaces s) ',').map pyStrip).filter
          (fun p => p ≠ "")).foldl parsePeriodStep ([], [])).1.insertionSort
            (fun a b : ℤ => a ≤ b) |>.Nodup :=
        (List.perm_insertionSort _ _).symm.nodup hnd
      exact List.Sorted.lt_of_le hsorted hnd2
  · intro s
    simp only [parse_period]
    split_ifs with h
    · simp [h]
    · dsimp only
      constructor
      · intro hfalse
        simp at hfalse
      · intro hnil
        have hperm := List.perm_insertionSort (fun a b : ℤ => a ≤ b)
          ((((pySplit (pyRemoveSpaces s) ',').map pyStrip).filter
            (fun p => p ≠ "")).foldl parsePeriodStep ([], [])).1
        rw [hnil] at hperm
        exact absurd hperm.nil_eq.symm h

theorem validate_count :
    ∀ (items : List InputItem) (res : List CleanItem × ℕ),
      validate_and_clean_data items = some res →
      res.2 + res.1.length = items.length := by
  intro items
  induction items with
  | nil =>
    intro res h
    obtain rfl : (([], 0) : List CleanItem × ℕ) = res := by
      simpa [validate_and_clean_data] using h
    rfl
  | cons it rest ih =>
    intro res h
    unfold validate_and_clean_data at h
    cases hstep : validateStep it with
    | indexError => rw [hstep] at h; exact Option.noConfusion h
    | skip =>
      rw [hstep] at h
      rw [Option.map_eq_some'] at h
      obtain ⟨r, hr, hres⟩ := h
      have := ih r hr
      rw [← hres]
      simp only [List.length_cons]
      omega
    | keep c =>
      rw [hstep] at h
      rw [Option.map_eq_some'] at h
      obtain ⟨r, hr, hres⟩ := h
      have := ih r hr
      rw [← hres]
      simp only [List.length_cons]
      omega

theorem validateStep_keep_inv (it : InputItem) (c : CleanItem)
    (h : validateStep it = ItemStep.keep c) :
    ∃ d, it.DOI = some d ∧ c.DOI = pyLowerStrip d ∧
      pyStartsWith c.DOI "10." = true := by
  obtain ⟨doiF, cdp⟩ := it
  cases doiF with
  | none => exact ItemStep.noConfusion h
  | some d0 =>
    have h' : (if d0 = "" then ItemStep.skip
        else if ¬ pyStartsWith (pyLowerStrip d0) "10." = true then ItemStep.skip
        else
          match (cdp.getD [[]]).head? with
          | none => ItemStep.indexError
          | some date_parts =>
            match date_parts with
            | [] => ItemStep.skip
            | y :: _ =>
              if y < 1900 then ItemStep.skip
              else ItemStep.keep ⟨pyLowerStrip d0, cdp⟩) = ItemStep.keep c := h
    by_cases h0 : d0 = ""
    · rw [if_pos h0] at h'; exact ItemStep.noConfusion h'
    · rw [if_neg h0] at h'
      by_cases hsw : pyStartsWith (pyLowerStrip d0) "10." = true
      · rw [if_neg (by simp [hsw])] at h'
        cases hdp : (cdp.getD [[]]).head? with
        | none => rw [hdp] at h'; exact ItemStep.noConfusion h'
        | some dp =>
          rw [hdp] at h'
          cases dp with
          | nil => exact ItemStep.noConfusion h'
          | cons y ys =>
            have h'' : (if y < 1900 then ItemStep.skip
                else ItemStep.keep ⟨pyLowerStrip d0, cdp⟩) = ItemStep.keep c := h'
            by_cases hy : y < 1900
            · rw [if_pos hy] at h''; exact ItemStep.noConfusion h''
            · rw [if_neg hy] at h''
              cases h''
              exact ⟨d0, rfl, rfl, hsw⟩
      · rw [if_pos (by simp [hsw])] at h'
        exact ItemStep.noConfusion h'

theorem validate_mem :
    ∀ (items : List InputItem) (res : List CleanItem × ℕ),
      validate_and_clean_data items = some res →
      ∀ c ∈ res.1, pyStartsWith c.DOI "10." = true ∧
        ∃ it ∈ items, ∃ d, it.DOI = some d ∧ c.DOI = pyLowerStrip d := by
  intro items
  induction items with
  | nil =>
    intro res h c hc
    obtain rfl : (([], 0) : List CleanItem × ℕ) = res := by
      simpa [validate_and_clean_data] using h
    exact absurd hc (List.not_mem_nil c)
  | cons it rest ih =>
    intro res h c hc
    unfold validate_and_clean_data at h
    cases hstep : validateStep it with
    | indexError => rw [hstep] at h; exact Option.noConfusion h
    | skip =>
      rw [hstep] at h
      rw [Option.map_eq_some'] at h
      obtain ⟨r, hr, hres⟩ := h
      rw [← hres] at hc
      obtain ⟨hpre, it', hit', d, hd, hcd⟩ := ih r hr c hc
      exact ⟨hpre, it', List.mem_cons_of_mem it hit', d, hd, hcd⟩
    | keep c0 =>
      rw [hstep] at h
      rw [Option.map_eq_some'] at h
      obtain ⟨r, hr, hres⟩ := h
      rw [← hres] at hc
      rcases List.mem_cons.mp hc with rfl | hc'
      · obtain ⟨d, hd, hcd, hpre⟩ := validateStep_keep_inv it c hstep
        exact ⟨hpre, it, List.mem_cons_self it rest, d, hd, hcd⟩
      · obtain ⟨hpre, it', hit', d, hd, hcd⟩ := ih r hr c hc'
        exact ⟨hpre, it', List.mem_cons_of_mem it hit', d, hd, hcd⟩

/-- C9: `validate_and_clean_data` normalizes each DOI by lowercasing and
stripping it, keeps only items whose normalized DOI starts with `10.`
(every validated item's DOI is the normalization of some input item's DOI),
skips every item whose DOI is missing or fails the check, and the reported
skipped count is exactly the number of excluded items. -/
theorem validate_doi_spec :
    (∀ (items : List InputItem) (res : List CleanItem × ℕ),
      validate_and_clean_data items = some res →
      res.2 + res.1.length = items.length ∧
      ∀ c ∈ res.1, pyStartsWith c.DOI "10." = true ∧
        ∃ it ∈ items, ∃ d, it.DOI = some d ∧ c.DOI = pyLowerStrip d) ∧
    (∀ it : InputItem, it.DOI = none → validateStep it = ItemStep.skip) ∧
    (∀ (it : InputItem) (d : String), it.DOI = some d →
      pyStartsWith (pyLowerStrip d) "10." = false →
      validateStep it = ItemStep.skip) := by
  refine ⟨fun items res h => ⟨validate_count items res h, validate_mem items res h⟩,
    ?_, ?_⟩
  · intro it h
    obtain ⟨doiF, cdp⟩ := it
    cases h
    rfl
  · intro it d h hb
    obtain ⟨doiF, cdp⟩ := it
    cases h
    show (if d = "" then ItemStep.skip
      else if ¬ pyStartsWith (pyLowerStrip d) "10." = true then ItemStep.skip
      else
        match (cdp.getD [[]]).head? with
        | none => ItemStep.indexError
        | some date_parts =>
          match date_parts with
          | [] => ItemStep.skip
          | y :: _ =>
            if y < 1900 then ItemStep.skip
            else ItemStep.keep ⟨pyLowerStrip d, cdp⟩) = ItemStep.skip
    by_cases h0 : d = ""
    · rw [if_pos h0]
    · rw [if_neg h0, if_pos (by simp [hb])]

/-- Closed instance of `validate_doi_spec`: count bookkeeping and the two
DOI-based exclusions at concrete items. -/
theorem validate_doi_spec_witness :
    1 + List.length ([] : List CleanItem) = 1 ∧
    validateStep ⟨none, none⟩ = ItemStep.skip ∧
    validateStep ⟨some "HTTP://x", none⟩ = ItemStep.skip :=
  ⟨(validate_doi_spec.1 [⟨none, none⟩] ([], 1) (by decide)).1,
   validate_doi_spec.2.1 ⟨none, none⟩ rfl,
   validate_doi_spec.2.2 ⟨some "HTTP://x", none⟩ "HTTP://x" rfl (by decide)⟩

/-- C10: beyond the DOI check, `validate_and_clean_data` also skips items
with a valid DOI whose first `created.date-parts` entry is absent or has
year below 1900; these exclusions land in the same single skipped count
(`skipped = length − validated`), and the function reports identical outputs
for a DOI failure and a date failure, so the report cannot distinguish
them. -/
theorem validate_date_spec :
    (∀ (it : InputItem) (d : String), it.DOI = some d → d ≠ "" →
      pyStartsWith (pyLowerStrip d) "10." = true →
      (it.created_date_parts = none → validateStep it = ItemStep.skip) ∧
      (∀ (y : ℤ) (ys : List ℤ) (dps : List (List ℤ)),
        it.created_date_parts = some ((y :: ys) :: dps) → y < 1900 →
        validateStep it = ItemStep.skip)) ∧
    (∀ (items : List InputItem) (res : List CleanItem × ℕ),
      validate_and_clean_data items = some res →
      res.2 = items.length - res.1.length) ∧
    validate_and_clean_data [⟨some "nodoi", some [[2005]]⟩] =
      validate_and_clean_data [⟨some "10.1/ok", some [[1805]]⟩] := by
  refine ⟨?_, ?_, by decide⟩
  · intro it d hd hne hpre
    obtain ⟨doiF, cdp⟩ := it
    cases hd
    constructor
    · intro hcreated
      cases hcreated
      show (if d = "" then ItemStep.skip
        else if ¬ pyStartsWith (pyLowerStrip d) "10." = true then ItemStep.skip
        else
          match ((none : Option (List (List ℤ))).getD [[]]).head? with
          | none => ItemStep.indexError
          | some date_parts =>
            match date_parts with
            | [] => ItemStep.skip
            | y :: _ =>
              if y < 1900 then ItemStep.skip
              else ItemStep.keep ⟨pyLowerStrip d, none⟩) = ItemStep.skip
      rw [if_neg hne, if_neg (by simp [hpre])]
      rfl
    · intro y ys dps hcreated hy
      cases hcreated
      show (if d = "" then ItemStep.skip
        else if ¬ pyStartsWith (pyLowerStrip d) "10." = true then ItemStep.skip
        else
          match ((some ((y :: ys) :: dps) :
              Option (List (List ℤ))).getD [[]]).head? with
          | none => ItemStep.indexError
          | some date_parts =>
            match date_parts with
            | [] => ItemStep.skip
            | y :: _ =>
              if y < 1900 then ItemStep.skip
              else
                ItemStep.keep ⟨pyLowerStrip d, some ((y :: ys) :: dps)⟩) =
          ItemStep.skip
      rw [if_neg hne, if_neg (by simp [hpre])]
      simp only [Option.getD_some, List.head?_cons]
      rw [if_pos hy]
  · intro items res h
    have := validate_count items res h
    omega

/-- Closed instance of `validate_date_spec`: date-based exclusions of items
whose DOI passes, and the merged count. -/
theorem validate_date_spec_witness :
    validateStep ⟨some "10.1/ok", none⟩ = ItemStep.skip ∧
    validateStep ⟨some "10.1/ok", some [[1805]]⟩ = ItemStep.skip ∧
    (1 : ℕ) = 1 - List.length ([] : List CleanItem) :=
  ⟨(validate_date_spec.1 ⟨some "10.1/ok", none⟩ "10.1/ok" rfl (by decide)
      (by decide)).1 rfl,
   (validate_date_spec.1 ⟨some "10.1/ok", some [[1805]]⟩ "10.1/ok" rfl
      (by decide) (by decide)).2 1805 [] [] rfl (by decide),
   validate_date_spec.2.1 [⟨none, none⟩] ([], 1) (by decide)⟩

end JournalTool
